import Mathlib

/-!
Shallow embedding of the native Python environment discovery subsystem:
`NativePythonEnvironments` (collection, normalizer) and
`NativeGlobalPythonFinderImpl` (`nativePythonFinder.ts`): configure snapshotting,
refresh single-flight, the per-record resolve pipeline, and the
completion latch of `doRefresh`.

Conventions of the embedding:
- Optional TypeScript fields (`executable?: string`) become `Option String`.
- JavaScript truthiness on an optional string (`if (x)`) is `truthy x`
  (`none` and the empty string are falsy); nullish coalescing (`x ?? y`)
  is `Option.getD`, which falls back only on `none`.
- Paths are modelled for the posix branch of `process.platform` checks.
- Promises are modelled by identifiers; asynchronous completion is a step
  relation on explicit states.
-/

namespace NativeEnvs

/-- JS truthiness of an optional string: `undefined` and `''` are falsy. -/
def truthy : Option String → Bool
  | none => false
  | some s => s ≠ ""

/-- `PythonEnvironmentKind` enum from `nativePythonFinder.ts` (raw kind tags). -/
inductive PythonEnvironmentKind where
  | Conda | Homebrew | Pyenv | GlobalPaths | PyenvVirtualEnv | Pipenv | Poetry
  | MacPythonOrg | MacCommandLineTools | LinuxGlobal | MacXCode | Venv
  | VirtualEnv | VirtualEnvWrapper | WindowsStore | WindowsRegistry
  deriving DecidableEq

/-- `PythonEnvKind` from `base/info` (members referenced by the sources). -/
inductive PythonEnvKind where
  | System | Unknown | OtherGlobal | Custom | MicrosoftStore
  | Poetry | Pyenv | VirtualEnv | Venv | VirtualEnvWrapper | OtherVirtual
  | Pipenv | Conda | ActiveState | Hatch | Pixi
  deriving DecidableEq

/-- `PythonEnvType` from `base/info`. -/
inductive PythonEnvType where
  | Virtual | Conda
  deriving DecidableEq

/-- `Architecture` from `common/utils/platform`. -/
inductive Architecture where
  | x86 | x64 | Unknown
  deriving DecidableEq

/-- `NativeEnvInfo` record produced by the worker (`nativePythonFinder.ts`).
The `prefix` field is named `prefixPath` here. -/
structure NativeEnvInfo where
  displayName : Option String := none
  name : Option String := none
  executable : Option String := none
  kind : Option PythonEnvironmentKind := none
  version : Option String := none
  prefixPath : Option String := none
  project : Option String := none
  arch : Option String := none
  symlinks : List String := []
  deriving DecidableEq

/-- Version triple as produced by `parseVersion`. -/
structure PythonVersion where
  major : Int
  minor : Int
  micro : Int
  deriving DecidableEq

/-- Split a character list on a separator character. -/
def splitOnChar (sep : Char) : List Char → List (List Char)
  | [] => [[]]
  | c :: rest =>
      let r := splitOnChar sep rest
      if c = sep then [] :: r
      else
        match r with
        | h :: t => (c :: h) :: t
        | [] => [[c]]

/-- Modelled from the spec: `parseVersion` lives in
`src/client/pythonEnvironments/base/info/pythonVersion.ts`, which is not among
the provided sources. Spec §4.5: version string → (major, minor, micro) triple,
tolerant of partial/garbage input; missing or unparsable components default to
the sentinel `-1` so "not yet resolved" is distinguishable from "resolved to 0".
A component is the numeric value of its digits, or `-1` if empty or not all
digits. -/
def parseVersionComponent (cs : List Char) : Int :=
  if cs ≠ [] ∧ cs.all (fun c => c.isDigit) then
    Int.ofNat (cs.foldl (fun acc c => acc * 10 + (c.toNat - 48)) 0)
  else -1

/-- Modelled from the spec: see `parseVersionComponent`. Splits on `.` and
parses up to three components. -/
def parseVersion (s : String) : PythonVersion :=
  match splitOnChar '.' s.data with
  | [] => ⟨-1, -1, -1⟩
  | [a] => ⟨parseVersionComponent a, -1, -1⟩
  | [a, b] => ⟨parseVersionComponent a, parseVersionComponent b, -1⟩
  | a :: b :: c :: _ => ⟨parseVersionComponent a, parseVersionComponent b, parseVersionComponent c⟩

/-- posix `path.join(p, "python")` as used by `makeExecutablePath`. -/
def pathJoin (a b : String) : String := a ++ "/" ++ b

/-- posix `path.basename`: last non-empty `/`-separated component. -/
def pathBasename (p : String) : String :=
  String.mk (((((splitOnChar '/' p.data).filter (fun c => c ≠ [])).getLast?).getD []))

/-- `makeExecutablePath` (posix branch of the `process.platform` check). -/
def makeExecutablePath (pfx : Option String) : String :=
  match pfx with
  | none => "python"
  | some p => pathJoin p "python"

/-- `toArch` from the collection module. -/
def toArch : Option String → Architecture
  | some "x86" => Architecture.x86
  | some "x64" => Architecture.x64
  | _ => Architecture.Unknown

/-- `getLocation`: prefix if truthy, else executable if truthy, else `''`. -/
def getLocation (nativeEnv : NativeEnvInfo) : String :=
  if truthy nativeEnv.prefixPath then nativeEnv.prefixPath.getD ""
  else if truthy nativeEnv.executable then nativeEnv.executable.getD ""
  else ""

/-- `kindToShortString`. -/
def kindToShortString (kind : PythonEnvKind) : Option String :=
  match kind with
  | PythonEnvKind.Poetry => some "poetry"
  | PythonEnvKind.Pyenv => some "pyenv"
  | PythonEnvKind.VirtualEnv => some "venv"
  | PythonEnvKind.Venv => some "venv"
  | PythonEnvKind.VirtualEnvWrapper => some "venv"
  | PythonEnvKind.OtherVirtual => some "venv"
  | PythonEnvKind.Pipenv => some "pipenv"
  | PythonEnvKind.Conda => some "conda"
  | PythonEnvKind.ActiveState => some "active-state"
  | PythonEnvKind.MicrosoftStore => some "Microsoft Store"
  | PythonEnvKind.Hatch => some "hatch"
  | PythonEnvKind.Pixi => some "pixi"
  | _ => none

/-- `toShortVersionString`. -/
def toShortVersionString (version : PythonVersion) : String :=
  toString version.major ++ "." ++ toString version.minor ++ "." ++ toString version.micro

/-- `getDisplayName` (the `'` quotes around the name are written escaped). -/
def getDisplayName (version : PythonVersion) (kind : PythonEnvKind) (arch : Architecture)
    (name : String) : String :=
  let versionStr := toShortVersionString version
  let kindStr := kindToShortString kind
  if arch = Architecture.x86 then
    match kindStr with
    | some ks =>
        if name ≠ "" then "Python " ++ versionStr ++ " 32-bit (\x27" ++ name ++ "\x27)"
        else "Python " ++ versionStr ++ " 32-bit (" ++ ks ++ ")"
    | none =>
        if name ≠ "" then "Python " ++ versionStr ++ " 32-bit (\x27" ++ name ++ "\x27)"
        else "Python " ++ versionStr ++ " 32-bit"
  else
    match kindStr with
    | some ks =>
        if name ≠ "" then "Python " ++ versionStr ++ " (\x27" ++ name ++ "\x27)"
        else "Python " ++ versionStr ++ " (" ++ ks ++ ")"
    | none =>
        if name ≠ "" then "Python " ++ versionStr ++ " (\x27" ++ name ++ "\x27)"
        else "Python " ++ versionStr

/-- `validEnv`: a record lacking both `prefix` and `executable` (strictly
`undefined`, not truthiness) is invalid. -/
def validEnv (nativeEnv : NativeEnvInfo) : Bool :=
  ¬ (nativeEnv.prefixPath = none ∧ nativeEnv.executable = none)

/-- `getEnvType`. -/
def getEnvType (kind : PythonEnvKind) : Option PythonEnvType :=
  match kind with
  | PythonEnvKind.Poetry => some PythonEnvType.Virtual
  | PythonEnvKind.Pyenv => some PythonEnvType.Virtual
  | PythonEnvKind.VirtualEnv => some PythonEnvType.Virtual
  | PythonEnvKind.Venv => some PythonEnvType.Virtual
  | PythonEnvKind.VirtualEnvWrapper => some PythonEnvType.Virtual
  | PythonEnvKind.OtherVirtual => some PythonEnvType.Virtual
  | PythonEnvKind.Pipenv => some PythonEnvType.Virtual
  | PythonEnvKind.ActiveState => some PythonEnvType.Virtual
  | PythonEnvKind.Hatch => some PythonEnvType.Virtual
  | PythonEnvKind.Pixi => some PythonEnvType.Virtual
  | PythonEnvKind.Conda => some PythonEnvType.Conda
  | _ => none

/-- `categoryToKind` lookup table from `nativePythonFinder.ts`; a missing
category maps to `Unknown`. All sixteen raw kinds are mapped. -/
def categoryToKind : Option PythonEnvironmentKind → PythonEnvKind
  | none => PythonEnvKind.Unknown
  | some PythonEnvironmentKind.Conda => PythonEnvKind.Conda
  | some PythonEnvironmentKind.GlobalPaths => PythonEnvKind.OtherGlobal
  | some PythonEnvironmentKind.Pyenv => PythonEnvKind.Pyenv
  | some PythonEnvironmentKind.PyenvVirtualEnv => PythonEnvKind.Pyenv
  | some PythonEnvironmentKind.Pipenv => PythonEnvKind.Pipenv
  | some PythonEnvironmentKind.Poetry => PythonEnvKind.Poetry
  | some PythonEnvironmentKind.VirtualEnv => PythonEnvKind.VirtualEnv
  | some PythonEnvironmentKind.VirtualEnvWrapper => PythonEnvKind.VirtualEnvWrapper
  | some PythonEnvironmentKind.Venv => PythonEnvKind.Venv
  | some PythonEnvironmentKind.WindowsRegistry => PythonEnvKind.System
  | some PythonEnvironmentKind.WindowsStore => PythonEnvKind.MicrosoftStore
  | some PythonEnvironmentKind.Homebrew => PythonEnvKind.System
  | some PythonEnvironmentKind.LinuxGlobal => PythonEnvKind.System
  | some PythonEnvironmentKind.MacCommandLineTools => PythonEnvKind.System
  | some PythonEnvironmentKind.MacPythonOrg => PythonEnvKind.System
  | some PythonEnvironmentKind.MacXCode => PythonEnvKind.System

/-- `getName`. -/
def getName (nativeEnv : NativeEnvInfo) (kind : PythonEnvKind) : String :=
  if truthy nativeEnv.name then nativeEnv.name.getD ""
  else
    let envType := getEnvType kind
    if truthy nativeEnv.prefixPath ∧
        (envType = some PythonEnvType.Conda ∨ envType = some PythonEnvType.Virtual) then
      pathBasename (nativeEnv.prefixPath.getD "")
    else ""

/-- Executable descriptor inside `PythonEnvInfo` (`sysPrefix` is named
`sysPrefixPath` here). -/
structure PythonEnvExecutable where
  filename : String
  sysPrefixPath : String
  ctime : Int
  mtime : Int
  deriving DecidableEq

/-- Version descriptor inside `PythonEnvInfo`. -/
structure PythonEnvVersionInfo where
  sysVersion : Option String
  major : Int
  minor : Int
  micro : Int
  deriving DecidableEq

/-- `PythonEnvInfo`, the normalized environment descriptor (`distro.org` is
flattened to `distroOrg`). -/
structure PythonEnvInfo where
  name : String
  location : String
  kind : PythonEnvKind
  executable : PythonEnvExecutable
  version : PythonEnvVersionInfo
  arch : Architecture
  distroOrg : String
  source : List String
  detailedDisplayName : String
  display : String
  type : Option PythonEnvType
  deriving DecidableEq

/-- `toPythonEnvInfo` (the `finder.categoryToKind` argument is the lookup table
above, which is what `NativeGlobalPythonFinderImpl.categoryToKind` delegates to). -/
def toPythonEnvInfo (nativeEnv : NativeEnvInfo) : Option PythonEnvInfo :=
  if ¬ validEnv nativeEnv then none
  else
    let kind := categoryToKind nativeEnv.kind
    let arch := toArch nativeEnv.arch
    let version := parseVersion (nativeEnv.version.getD "")
    let name := getName nativeEnv kind
    let displayName :=
      if truthy nativeEnv.version then getDisplayName version kind arch name
      else (nativeEnv.displayName.getD "Python")
    some
      { name := name
        location := getLocation nativeEnv
        kind := kind
        executable :=
          { filename := nativeEnv.executable.getD (makeExecutablePath nativeEnv.prefixPath)
            sysPrefixPath := nativeEnv.prefixPath.getD ""
            ctime := -1
            mtime := -1 }
        version :=
          { sysVersion := nativeEnv.version
            major := version.major
            minor := version.minor
            micro := version.micro }
        arch := arch
        distroOrg := ""
        source := []
        detailedDisplayName := displayName
        display := displayName
        type := getEnvType kind }

end NativeEnvs

namespace NativeEnvs

/-- Change events fired by the collection (`FileChangeType` + payload). -/
inductive ChangeEvent where
  | Created (newEnv : PythonEnvInfo)
  | Changed (oldEnv newEnv : PythonEnvInfo)
  deriving DecidableEq

/-- Identity key of a collection entry: the executable path
(`item.executable.filename`). -/
def envKey (e : PythonEnvInfo) : String := e.executable.filename

/-- `NativePythonEnvironments.addEnv`: normalize; on failure do nothing; else
look up the entry with the same executable path: present → filter it out and
push the new entry, firing `Changed(old, new)`; absent → push, firing `Created`.
Returns the new `_envs` list and the events fired. -/
def addEnv (native : NativeEnvInfo) (envs : List PythonEnvInfo) :
    List PythonEnvInfo × List ChangeEvent :=
  match toPythonEnvInfo native with
  | none => (envs, [])
  | some info =>
    match envs.find? (fun item => item.executable.filename = info.executable.filename) with
    | some old =>
        (envs.filter (fun item => ¬ item.executable.filename = info.executable.filename) ++ [info],
          [ChangeEvent.Changed old info])
    | none => (envs ++ [info], [ChangeEvent.Created info])

/-- `NativePythonEnvironments.resolveEnv`. The worker round trip
`finder.resolve(envPath)` is modelled by its outcome `res` (`none` for a falsy
response). Returns the new `_envs` list, the events fired, and the value the
method returns to its caller. Note the merge happens only when an entry with
the same executable path already exists. -/
def resolveEnv (envPath : Option String) (res : Option NativeEnvInfo)
    (envs : List PythonEnvInfo) :
    List PythonEnvInfo × List ChangeEvent × Option PythonEnvInfo :=
  match envPath with
  | none => (envs, [], none)
  | some _ =>
    match res with
    | none => (envs, [], none)
    | some native =>
      match toPythonEnvInfo native with
      | none => (envs, [], none)
      | some env =>
        match envs.find? (fun item => item.executable.filename = env.executable.filename) with
        | some old =>
            (envs.filter (fun item => ¬ item.executable.filename = env.executable.filename)
                ++ [env],
              [ChangeEvent.Changed old env], some env)
        | none => (envs, [], some env)

/-- One mutation of the collection: an `addEnv` call, or a `resolveEnv` call
together with the worker's answer for it. -/
inductive CollectionOp where
  | add (raw : NativeEnvInfo)
  | resolveCall (envPath : Option String) (res : Option NativeEnvInfo)

/-- Apply one operation to the `_envs` list. -/
def applyOp (envs : List PythonEnvInfo) : CollectionOp → List PythonEnvInfo × List ChangeEvent
  | CollectionOp.add raw => addEnv raw envs
  | CollectionOp.resolveCall p res =>
      let r := resolveEnv p res envs
      (r.1, r.2.1)

/-- Run a sequence of operations from a starting list. -/
def runOps (envs : List PythonEnvInfo) : List CollectionOp → List PythonEnvInfo
  | [] => envs
  | op :: rest => runOps (applyOp envs op).1 rest

/-- At most one entry per executable path. -/
def UniqueByPath (envs : List PythonEnvInfo) : Prop :=
  envs.Pairwise (fun a b => envKey a ≠ envKey b)

end NativeEnvs

namespace NativeEnvs

/-- Outcome of the `environment` notification handler inside
`NativeGlobalPythonFinderImpl.doRefresh` for one incoming record. -/
inductive FinderEmit where
  /-- `discovered.fire(data)`: the raw record is passed through. -/
  | direct (e : NativeEnvInfo)
  /-- a `resolve` sub-request was sent for `reqPath` and its result fired. -/
  | resolvedEmit (reqPath : String) (e : NativeEnvInfo)
  /-- a `resolve` sub-request was sent for `reqPath` and rejected: the error is
  logged and nothing is fired. -/
  | droppedError (reqPath : String)
  deriving DecidableEq

/-- The `environment` notification handler of `doRefresh`
(`if (data.executable && (!data.version || !data.prefix)) { resolve … } else fire`).
`resolveFn` models the worker's `resolve` request: `none` is a rejection. -/
def finderHandleEnvironment (resolveFn : String → Option NativeEnvInfo)
    (data : NativeEnvInfo) : FinderEmit :=
  if truthy data.executable ∧ (¬ truthy data.version ∨ ¬ truthy data.prefixPath) then
    match data.executable with
    | some exe =>
        match resolveFn exe with
        | some environment => FinderEmit.resolvedEmit exe environment
        | none => FinderEmit.droppedError exe
    | none => FinderEmit.direct data
  else FinderEmit.direct data

/-- Outcome of the per-record body of the `triggerRefresh` loop in
`NativePythonEnvironments`. -/
inductive CollectionAction where
  /-- filtered out (invalid record) or the trailing `traceError` branch. -/
  | dropped
  /-- `addEnv(native)` called directly, no `finder.resolve`. -/
  | addedDirect (e : NativeEnvInfo)
  /-- `finder.resolve(reqPath)` issued; its (truthy) result passed to `addEnv`. -/
  | resolvedAdded (reqPath : String) (e : NativeEnvInfo)
  /-- `finder.resolve(reqPath)` issued; it rejected, so nothing was added. -/
  | resolvedNothing (reqPath : String)
  deriving DecidableEq

/-- Per-record body of the `for await` loop in
`NativePythonEnvironments.triggerRefresh` (after the
`isNativeInfoEnvironment` manager filter): conda record without an executable →
add as-is; path present but version missing or with a negative component →
resolve then add the result; path and fully non-negative version present → add
as-is; otherwise log and drop. -/
def collectionProcess (resolveFn : String → Option NativeEnvInfo)
    (native : NativeEnvInfo) : CollectionAction :=
  if ¬ validEnv native then CollectionAction.dropped
  else
    let envPath : Option String := native.executable.orElse (fun _ => native.prefixPath)
    let version : Option PythonVersion :=
      if truthy native.version then some (parseVersion (native.version.getD "")) else none
    if categoryToKind native.kind = PythonEnvKind.Conda ∧ ¬ truthy native.executable then
      CollectionAction.addedDirect native
    else if truthy envPath ∧
        (version = none ∨ ∃ v, version = some v ∧ (v.major < 0 ∨ v.minor < 0 ∨ v.micro < 0)) then
      match envPath with
      | some p =>
          match resolveFn p with
          | some env => CollectionAction.resolvedAdded p env
          | none => CollectionAction.resolvedNothing p
      | none => CollectionAction.dropped
    else if truthy envPath ∧
        (∃ v, version = some v ∧ 0 ≤ v.major ∧ 0 ≤ v.minor ∧ 0 ≤ v.micro) then
      CollectionAction.addedDirect native
    else CollectionAction.dropped

/-- Composition of the two layers for one discovered environment record: what
sub-requests are issued and which record (if any) finally reaches `addEnv`. -/
def processRecord (resolveFn : String → Option NativeEnvInfo) (raw : NativeEnvInfo) :
    List String × Option NativeEnvInfo :=
  match finderHandleEnvironment resolveFn raw with
  | FinderEmit.direct e =>
      match collectionProcess resolveFn e with
      | CollectionAction.addedDirect x => ([], some x)
      | CollectionAction.resolvedAdded p x => ([p], some x)
      | CollectionAction.resolvedNothing p => ([p], none)
      | CollectionAction.dropped => ([], none)
  | FinderEmit.resolvedEmit p e =>
      match collectionProcess resolveFn e with
      | CollectionAction.addedDirect x => ([p], some x)
      | CollectionAction.resolvedAdded q x => ([p, q], some x)
      | CollectionAction.resolvedNothing q => ([p, q], none)
      | CollectionAction.dropped => ([p], none)
  | FinderEmit.droppedError p => ([p], none)

/-- All version components of a parsed version are non-negative. -/
def VersionNonNeg (v : PythonVersion) : Prop :=
  0 ≤ v.major ∧ 0 ≤ v.minor ∧ 0 ≤ v.micro

/-- A worker record whose optional string fields are either absent or
non-empty (real worker records never carry empty paths or version strings). -/
def WellFormedRecord (r : NativeEnvInfo) : Prop :=
  r.executable ≠ some "" ∧ r.version ≠ some "" ∧ r.prefixPath ≠ some ""

/-- The resolve oracle only returns complete records: executable, version and
prefix present, and the parsed version fully non-negative. -/
def OracleComplete (resolveFn : String → Option NativeEnvInfo) : Prop :=
  ∀ p r, resolveFn p = some r →
    truthy r.executable ∧ truthy r.version ∧ truthy r.prefixPath ∧
      VersionNonNeg (parseVersion (r.version.getD ""))

end NativeEnvs

namespace NativeEnvs

/-- First element matching an executable path in `_envs`
(the `find` in `addEnv`/`resolveEnv`). -/
def findByKey (envs : List PythonEnvInfo) (k : String) : Option PythonEnvInfo :=
  envs.find? (fun item => item.executable.filename = k)

/-- The record an operation applies to the entry of executable path `k` in
state `envs`: an `addEnv` whose normalization succeeds writes its normalized
record under its own path; a `resolveEnv` writes its resolved record only when
it merges, i.e. when an entry for that path already exists. -/
def opWrites (envs : List PythonEnvInfo) (op : CollectionOp) (k : String) :
    Option PythonEnvInfo :=
  match op with
  | CollectionOp.add raw =>
      match toPythonEnvInfo raw with
      | some info => if envKey info = k then some info else none
      | none => none
  | CollectionOp.resolveCall p res =>
      match (resolveEnv p res envs).2.2 with
      | some env =>
          if envKey env = k ∧ (findByKey envs (envKey env)).isSome then some env else none
      | none => none

/-- Sample worker records used for concrete witnesses. -/
def sampleA : NativeEnvInfo :=
  { executable := some "/usr/bin/python3", version := some "3.10.4",
    prefixPath := some "/usr", arch := some "x64",
    kind := some PythonEnvironmentKind.LinuxGlobal }

/-- A second sample record with a distinct executable path. -/
def sampleB : NativeEnvInfo :=
  { executable := some "/a/python", version := some "3.11.1", prefixPath := some "/a",
    kind := some PythonEnvironmentKind.VirtualEnv }

/-- A record with the same executable path as `sampleA` but a newer version. -/
def sampleA2 : NativeEnvInfo :=
  { executable := some "/usr/bin/python3", version := some "3.12.0",
    prefixPath := some "/usr", kind := some PythonEnvironmentKind.LinuxGlobal }

/-- A record with an executable but no version, as in spec Scenario C. -/
def sampleUnresolved : NativeEnvInfo :=
  { executable := some "/a/python", kind := some PythonEnvironmentKind.VirtualEnv }

/-- A resolve oracle that fully resolves every path to `sampleB`-like data. -/
def sampleOracle : String → Option NativeEnvInfo := fun _ => some sampleB

/- ### Configure snapshotting (`NativeGlobalPythonFinderImpl.configure`) -/

/-- `ConfigurationOptions` sent to the worker. -/
structure ConfigurationOptions where
  workspaceDirectories : List String
  environmentDirectories : List String
  condaExecutable : Option String
  poetryExecutable : Option String
  deriving DecidableEq

/-- `JSON.stringify` escaping for the characters that matter in this schema. -/
def jsonEscapeChar (c : Char) : List Char :=
  if c = '"' ∨ c = '\\' then ['\\', c] else [c]

/-- `JSON.stringify` of a string value, as a character list. -/
def jsonQuote (s : String) : List Char :=
  '"' :: ((s.data.map jsonEscapeChar).flatten ++ ['"'])

/-- `JSON.stringify` of an array of strings. -/
def jsonStringArray (xs : List String) : List Char :=
  '[' :: (List.intercalate [','] (xs.map jsonQuote) ++ [']'])

/-- Serialization of an optional string member: `undefined` members are
omitted entirely by `JSON.stringify`. -/
def jsonOptMember (key : String) (v : Option String) : List Char :=
  match v with
  | none => []
  | some s => ',' :: (jsonQuote key ++ [':'] ++ jsonQuote s)

/-- `JSON.stringify(options)` for the `ConfigurationOptions` object, with the
member order in which `configure` constructs it. -/
def jsonStringifyOptions (o : ConfigurationOptions) : List Char :=
  '{' ::
    (jsonQuote "workspaceDirectories" ++ [':'] ++ jsonStringArray o.workspaceDirectories
      ++ [','] ++ jsonQuote "environmentDirectories" ++ [':']
      ++ jsonStringArray o.environmentDirectories
      ++ jsonOptMember "condaExecutable" o.condaExecutable
      ++ jsonOptMember "poetryExecutable" o.poetryExecutable
      ++ ['}'])

/-- `JSON.stringify(this.lastConfiguration || {})`: an empty snapshot
serializes to `{}`. -/
def jsonStringifyLast (lastConfiguration : Option ConfigurationOptions) : List Char :=
  match lastConfiguration with
  | none => ['{', '}']
  | some o => jsonStringifyOptions o

/-- `configure(options)` acting on the `lastConfiguration` snapshot. Returns
the new snapshot and whether a `configure` request was sent to the worker.
(The snapshot is updated before the request is awaited, so it is recorded even
when the request itself fails.) -/
def configure (options : ConfigurationOptions)
    (lastConfiguration : Option ConfigurationOptions) :
    Option ConfigurationOptions × Bool :=
  if jsonStringifyOptions options = jsonStringifyLast lastConfiguration then
    (lastConfiguration, false)
  else (some options, true)

/- ### Refresh single-flight (`NativePythonEnvironments.triggerRefresh`) -/

/-- `ProgressReportStage` (members used by the collection module). -/
inductive ProgressReportStage where
  | idle | discoveryStarted | discoveryFinished
  deriving DecidableEq

/-- The fields of `NativePythonEnvironments` relevant to refresh control:
the progress state and the identity of the outstanding completion deferred
(`_refreshPromise`), plus a counter to mint fresh promise identities. -/
structure TriggerState where
  refreshState : ProgressReportStage
  refreshPromiseId : Option Nat
  nextPromiseId : Nat
  deriving DecidableEq

/-- Result of one `triggerRefresh` call: the promise returned to the caller,
the new object state, how many `finder.refresh()` scans the call starts, and
the progress events it fires. -/
structure TriggerResult where
  promiseId : Nat
  newState : TriggerState
  finderRefreshCalls : Nat
  progressEvents : List ProgressReportStage
  deriving DecidableEq

/-- `triggerRefresh`: if a refresh is already in `discoveryStarted` with an
outstanding `_refreshPromise`, return that same promise and do nothing else;
otherwise move to `discoveryStarted`, fire a progress event, create a fresh
deferred and start exactly one `finder.refresh()` consumption loop. -/
def triggerRefresh (s : TriggerState) : TriggerResult :=
  match s.refreshState, s.refreshPromiseId with
  | ProgressReportStage.discoveryStarted, some p =>
      { promiseId := p, newState := s, finderRefreshCalls := 0, progressEvents := [] }
  | _, _ =>
      { promiseId := s.nextPromiseId
        newState :=
          { refreshState := ProgressReportStage.discoveryStarted
            refreshPromiseId := some s.nextPromiseId
            nextPromiseId := s.nextPromiseId + 1 }
        finderRefreshCalls := 1
        progressEvents := [ProgressReportStage.discoveryStarted] }

/- ### Completion latch of `doRefresh` (`notifyUponCompletion`) -/

/-- State of one `doRefresh` call's completion tracking: the append-only
`pendingPromises` array (promises by identifier), the promises that have
settled, the outstanding `Promise.all` continuations (each holding the
snapshot of `pendingPromises` it awaits and whose length is its
`initialCount`), and whether `completed` has been resolved. -/
structure DoRefreshState where
  pending : List Nat
  settledIds : List Nat
  waiters : List (List Nat)
  fired : Bool
  deriving DecidableEq

/-- `doRefresh` before any tracked promise: empty arrays, not completed. -/
def initialRefreshState : DoRefreshState :=
  { pending := [], settledIds := [], waiters := [], fired := false }

/-- Event-loop steps of the completion latch.
`track p` is `trackPromiseAndNotifyOnCompletion`: push the promise and call
`notifyUponCompletion`, which snapshots `pendingPromises` into a
`Promise.all` continuation. `settle p` is a tracked promise fulfilling (all
tracked promises have their rejections caught, so they only fulfil).
A continuation whose awaited snapshot has fully settled runs:
if its `initialCount` equals the current length of `pendingPromises` it
resolves `completed`, otherwise it re-runs `notifyUponCompletion`, taking a
fresh snapshot. -/
inductive RefreshStep : DoRefreshState → DoRefreshState → Prop where
  | track (s : DoRefreshState) (p : Nat) :
      RefreshStep s
        { pending := s.pending ++ [p], settledIds := s.settledIds,
          waiters := s.waiters ++ [s.pending ++ [p]], fired := s.fired }
  | settle (s : DoRefreshState) (p : Nat) (hp : p ∈ s.pending) :
      RefreshStep s
        { pending := s.pending, settledIds := p :: s.settledIds,
          waiters := s.waiters, fired := s.fired }
  | waiterFires (s : DoRefreshState) (w : List Nat) (hw : w ∈ s.waiters)
      (hall : ∀ q ∈ w, q ∈ s.settledIds) (hlen : w.length = s.pending.length) :
      RefreshStep s
        { pending := s.pending, settledIds := s.settledIds,
          waiters := s.waiters.erase w, fired := true }
  | waiterRetries (s : DoRefreshState) (w : List Nat) (hw : w ∈ s.waiters)
      (hall : ∀ q ∈ w, q ∈ s.settledIds) (hlen : w.length ≠ s.pending.length) :
      RefreshStep s
        { pending := s.pending, settledIds := s.settledIds,
          waiters := s.waiters.erase w ++ [s.pending], fired := s.fired }

/-- States reachable from the start of a `doRefresh` call. -/
def ReachableRefresh (s : DoRefreshState) : Prop :=
  Relation.ReflTransGen RefreshStep initialRefreshState s

/-- Concrete latch state: the worker `refresh` request (promise 0) tracked and
settled, its continuation still queued. -/
def c2State1 : DoRefreshState :=
  { pending := [0], settledIds := [0], waiters := [[0]], fired := false }

/-- `c2State1` after its continuation runs and resolves `completed`. -/
def c2State2 : DoRefreshState :=
  { pending := [0], settledIds := [0], waiters := [], fired := true }

/- ### `getEnvs` aliasing (reference semantics of `return this._envs`) -/

/-- Reference-level state for `getEnvs`: a heap of arrays addressed by
reference, and `_envs` as a reference into that heap. -/
structure EnvsHeapState where
  heap : Nat → List PythonEnvInfo
  envsRef : Nat

/-- `getEnvs()` body `return this._envs`: the caller receives the reference
itself, not a copy. -/
def getEnvsRef (s : EnvsHeapState) : Nat := s.envsRef

/-- Dereference an array. -/
def heapRead (s : EnvsHeapState) (r : Nat) : List PythonEnvInfo := s.heap r

/-- A caller mutating the array it received (`envs.push(x)`). -/
def callerPush (s : EnvsHeapState) (r : Nat) (x : PythonEnvInfo) : EnvsHeapState :=
  { s with heap := fun r' => if r' = r then s.heap r ++ [x] else s.heap r' }

/-- The internal collection state a later operation observes. -/
def internalEnvs (s : EnvsHeapState) : List PythonEnvInfo :=
  heapRead s (getEnvsRef s)

/-- A concrete normalized environment (normalization of `sampleA`),
used to mutate the snapshot in the `getEnvs` counterexample. -/
def sampleEnvInfo : PythonEnvInfo :=
  (toPythonEnvInfo sampleA).getD
    { name := "", location := "", kind := PythonEnvKind.Unknown,
      executable := { filename := "", sysPrefixPath := "", ctime := -1, mtime := -1 },
      version := { sysVersion := none, major := -1, minor := -1, micro := -1 },
      arch := Architecture.Unknown, distroOrg := "", source := [],
      detailedDisplayName := "", display := "", type := none }

/-- Initial heap for the `getEnvs` counterexample: `_envs` is the empty array
stored at reference 0. -/
def emptyHeapState : EnvsHeapState :=
  { heap := fun _ => [], envsRef := 0 }

end NativeEnvs

namespace NativeEnvs

/-- `find?` is unchanged by filtering with a predicate implied by the one
searched for. -/
theorem find?_filter_of_imp {α} (p q : α → Bool) (l : List α)
    (himp : ∀ x, p x = true → q x = true) :
    (l.filter q).find? p = l.find? p := by
  rw [List.find?_filter]
  congr 1
  funext a
  by_cases h : p a = true
  · simp [h, himp a h]
  · simp [Bool.eq_false_iff.2 h]

/-- C8: `addEnv` on a record lacking both prefix and executable fails
validation: the collection is unchanged and no event fires; the caller sees
nothing (the error is only logged inside `validEnv`). -/
theorem addEnv_invalid_record_is_silent (raw : NativeEnvInfo)
    (envs : List PythonEnvInfo)
    (hpfx : raw.prefixPath = none) (hexe : raw.executable = none) :
    addEnv raw envs = (envs, []) := by
  unfold addEnv toPythonEnvInfo validEnv
  simp [hpfx, hexe]

/-- Witness for `addEnv_invalid_record_is_silent` at the empty record and
empty collection. -/
theorem addEnv_invalid_record_is_silent_witness :
    addEnv {} [] = ([], []) :=
  addEnv_invalid_record_is_silent {} [] rfl rfl

end NativeEnvs

namespace NativeEnvs

/-- C9 counterexample: starting from entries for `/usr/bin/python3` and
`/a/python` (in that order), re-adding a record for `/usr/bin/python3` leaves
the collection ordered `/a/python`, `/usr/bin/python3`: the replacing entry is
moved to the end, not kept at the replaced entry's position (index 0). -/
theorem addEnv_replace_position_counterexample :
    (((addEnv sampleA2
          (runOps [] [CollectionOp.add sampleA, CollectionOp.add sampleB])).1).map envKey
        = ["/a/python", "/usr/bin/python3"]) ∧
      ¬ (((addEnv sampleA2
          (runOps [] [CollectionOp.add sampleA, CollectionOp.add sampleB])).1).map envKey
        = ["/usr/bin/python3", "/a/python"]) := by
  constructor
  · rfl
  · decide

/-- C9 (amended): when `addEnv` is called with a record whose normalized
executable path is already present, the old entry is removed and the replacing
entry is appended at the end of the list; the relative order of all other
entries (the filter of the original list) is unchanged, and a
`Changed(old, new)` event fires. -/
theorem addEnv_replace_appends_at_end (raw : NativeEnvInfo) (envs : List PythonEnvInfo)
    (info old : PythonEnvInfo)
    (hinfo : toPythonEnvInfo raw = some info)
    (hold : envs.find? (fun item => item.executable.filename = info.executable.filename)
      = some old) :
    addEnv raw envs =
      (envs.filter (fun item => ¬ item.executable.filename = info.executable.filename) ++ [info],
        [ChangeEvent.Changed old info]) := by
  simp only [addEnv, hinfo, hold]

/-- Witness for `addEnv_replace_appends_at_end`: replacing the entry of
`sampleA` by `sampleA2`. -/
theorem addEnv_replace_appends_at_end_witness :
    addEnv sampleA2 (addEnv sampleA []).1 =
      ((addEnv sampleA []).1.filter
          (fun item => ¬ item.executable.filename =
            ((toPythonEnvInfo sampleA2).getD sampleEnvInfo).executable.filename)
        ++ [(toPythonEnvInfo sampleA2).getD sampleEnvInfo],
        [ChangeEvent.Changed sampleEnvInfo ((toPythonEnvInfo sampleA2).getD sampleEnvInfo)]) :=
  addEnv_replace_appends_at_end sampleA2 (addEnv sampleA []).1
    ((toPythonEnvInfo sampleA2).getD sampleEnvInfo) sampleEnvInfo rfl (by decide)

end NativeEnvs

namespace NativeEnvs

/-- C6: a discovered conda record with a prefix but no executable passes both
layers untouched — no resolve sub-request from the finder's notification
handler nor from the collection loop — and is added as-is; its normalized
entry has environment type `Conda` and location equal to the prefix. -/
theorem conda_without_executable_added_as_is
    (resolveFn : String → Option NativeEnvInfo) (raw : NativeEnvInfo) (pfx : String)
    (hkind : raw.kind = some PythonEnvironmentKind.Conda)
    (hexe : raw.executable = none)
    (hpfx : raw.prefixPath = some pfx) (hne : pfx ≠ "") :
    processRecord resolveFn raw = ([], some raw) ∧
      ∃ info, toPythonEnvInfo raw = some info ∧
        info.type = some PythonEnvType.Conda ∧ info.location = pfx := by
  have hvalid : validEnv raw = true := by simp [validEnv, hpfx]
  constructor
  · simp [processRecord, finderHandleEnvironment, hexe, truthy, collectionProcess, hvalid,
      hkind, categoryToKind]
  · unfold toPythonEnvInfo
    rw [if_neg (by simp [hvalid])]
    refine ⟨_, rfl, ?_, ?_⟩
    · simp [hkind, categoryToKind, getEnvType]
    · simp [getLocation, hpfx, truthy, hne]

/-- Witness for `conda_without_executable_added_as_is`: the spec's Scenario B
record `{prefix: "/opt/conda/envs/foo", kind: "Conda"}`. -/
theorem conda_without_executable_added_as_is_witness :
    processRecord sampleOracle
        { prefixPath := some "/opt/conda/envs/foo", kind := some PythonEnvironmentKind.Conda }
      = ([],
          some { prefixPath := some "/opt/conda/envs/foo",
                 kind := some PythonEnvironmentKind.Conda }) :=
  (conda_without_executable_added_as_is sampleOracle
      { prefixPath := some "/opt/conda/envs/foo", kind := some PythonEnvironmentKind.Conda }
      "/opt/conda/envs/foo" rfl rfl rfl (by decide)).1

/-- C7 counterexample: `resolveEnv("/x/python")` on an empty collection with a
fully resolved worker answer returns a defined environment, yet the collection
afterwards is still empty — the resolved environment was not merged in. -/
theorem resolveEnv_no_insert_counterexample :
    (resolveEnv (some "/x/python") (some sampleA) []).2.2.isSome = true ∧
      (resolveEnv (some "/x/python") (some sampleA) []).1 = [] := by
  exact ⟨rfl, rfl⟩

/-- C7 (amended): when `resolveEnv` returns a defined normalized environment,
the collection is updated only if an entry with the same executable path
already existed — that entry is replaced (removed, resolved value appended)
and a `Changed(old, new)` event fires; when no such entry existed, the
collection is left unchanged and no event fires. -/
theorem resolveEnv_merges_only_existing (envPath : Option String)
    (res : Option NativeEnvInfo) (envs : List PythonEnvInfo) (env : PythonEnvInfo)
    (hret : (resolveEnv envPath res envs).2.2 = some env) :
    (∃ old,
        envs.find? (fun item => item.executable.filename = env.executable.filename)
            = some old ∧
          (resolveEnv envPath res envs).1 =
            envs.filter (fun item => ¬ item.executable.filename = env.executable.filename)
              ++ [env] ∧
          (resolveEnv envPath res envs).2.1 = [ChangeEvent.Changed old env]) ∨
      (envs.find? (fun item => item.executable.filename = env.executable.filename) = none ∧
        (resolveEnv envPath res envs).1 = envs ∧
        (resolveEnv envPath res envs).2.1 = []) := by
  cases envPath with
  | none => simp [resolveEnv] at hret
  | some p =>
    cases res with
    | none => simp [resolveEnv] at hret
    | some native =>
      cases hinfo : toPythonEnvInfo native with
      | none => simp [resolveEnv, hinfo] at hret
      | some env' =>
        cases hfind : envs.find?
            (fun item => item.executable.filename = env'.executable.filename) with
        | some old =>
            have heq : env' = env := by
              simpa [resolveEnv, hinfo, hfind] using hret
            subst heq
            exact Or.inl ⟨old, hfind, by simp [resolveEnv, hinfo, hfind]⟩
        | none =>
            have heq : env' = env := by
              simpa [resolveEnv, hinfo, hfind] using hret
            subst heq
            exact Or.inr ⟨hfind, by simp [resolveEnv, hinfo, hfind]⟩

/-- Witness for `resolveEnv_merges_only_existing`: resolving `/a/python` when
an entry for it already exists (added from `sampleUnresolved` via the oracle
path is not needed; the entry comes from `sampleB`). -/
theorem resolveEnv_merges_only_existing_witness :
    (∃ old,
        (addEnv sampleB []).1.find?
            (fun item => item.executable.filename =
              ((toPythonEnvInfo sampleB).getD sampleEnvInfo).executable.filename)
            = some old ∧
          (resolveEnv (some "/a/python") (some sampleB) (addEnv sampleB []).1).1 =
            (addEnv sampleB []).1.filter
              (fun item => ¬ item.executable.filename =
                ((toPythonEnvInfo sampleB).getD sampleEnvInfo).executable.filename)
              ++ [(toPythonEnvInfo sampleB).getD sampleEnvInfo] ∧
          (resolveEnv (some "/a/python") (some sampleB) (addEnv sampleB []).1).2.1 =
            [ChangeEvent.Changed old ((toPythonEnvInfo sampleB).getD sampleEnvInfo)]) ∨
      ((addEnv sampleB []).1.find?
          (fun item => item.executable.filename =
            ((toPythonEnvInfo sampleB).getD sampleEnvInfo).executable.filename) = none ∧
        (resolveEnv (some "/a/python") (some sampleB) (addEnv sampleB []).1).1 =
          (addEnv sampleB []).1 ∧
        (resolveEnv (some "/a/python") (some sampleB) (addEnv sampleB []).1).2.1 = []) :=
  resolveEnv_merges_only_existing (some "/a/python") (some sampleB) (addEnv sampleB []).1
    ((toPythonEnvInfo sampleB).getD sampleEnvInfo) rfl

end NativeEnvs

namespace NativeEnvs

/-- C10 counterexample: `getEnvs` returns `this._envs` itself. Pushing onto
the returned array changes the internal collection observed by a later
`getEnvs`: after the caller's push the internal state is `[sampleEnvInfo]`,
no longer equal to the `[]` observed before. -/
theorem getEnvs_alias_counterexample :
    internalEnvs (callerPush emptyHeapState (getEnvsRef emptyHeapState) sampleEnvInfo)
        = [sampleEnvInfo] ∧
      internalEnvs emptyHeapState = [] ∧
      ¬ internalEnvs (callerPush emptyHeapState (getEnvsRef emptyHeapState) sampleEnvInfo)
          = internalEnvs emptyHeapState := by
  refine ⟨rfl, rfl, ?_⟩
  intro h
  have h' : ([sampleEnvInfo] : List PythonEnvInfo) = [] := h
  exact List.cons_ne_nil _ _ h'

/-- C10 (amended): `getEnvs` returns the internal `_envs` array by reference,
not a copy: the returned reference is the collection's own reference, so a
caller mutation (`push x`) of the returned array changes the internal
collection state observed by later operations to the old list with `x`
appended. -/
theorem getEnvs_returns_live_reference (s : EnvsHeapState) (x : PythonEnvInfo) :
    getEnvsRef s = s.envsRef ∧
      heapRead s (getEnvsRef s) = internalEnvs s ∧
      internalEnvs (callerPush s (getEnvsRef s) x) = internalEnvs s ++ [x] := by
  refine ⟨rfl, rfl, ?_⟩
  simp [internalEnvs, callerPush, heapRead, getEnvsRef]

/-- C5: a `configure` call issued right after another one with structurally
equal options never sends a second request (the snapshot recorded by the first
call makes the serialized comparison succeed), while the first call from a
fresh finder (no snapshot) always sends one — so two equal calls in
succession from construction send exactly one request. -/
theorem configure_equal_options_single_request :
    (∀ (lastConfiguration : Option ConfigurationOptions) (opts opts' : ConfigurationOptions),
        opts' = opts →
        (configure opts' (configure opts lastConfiguration).1).2 = false) ∧
      ∀ opts : ConfigurationOptions, (configure opts none).2 = true := by
  have hne : ∀ opts : ConfigurationOptions,
      jsonStringifyOptions opts ≠ jsonStringifyLast none := by
    intro opts h
    simp [jsonStringifyOptions, jsonQuote, jsonStringifyLast] at h
  constructor
  · intro lastConfiguration opts opts' heq
    rw [heq]
    by_cases h : jsonStringifyOptions opts = jsonStringifyLast lastConfiguration
    · have h1 : (configure opts lastConfiguration).1 = lastConfiguration := by
        simp [configure, h]
      rw [h1]
      simp [configure, h]
    · have h1 : (configure opts lastConfiguration).1 = some opts := by
        simp [configure, h]
      rw [h1]
      simp [configure, jsonStringifyLast]
  · intro opts
    simp [configure, hne opts]

/-- Witness for `configure_equal_options_single_request`: two calls with the
empty workspace configuration from a fresh snapshot. -/
theorem configure_equal_options_single_request_witness :
    (configure ⟨[], [], none, none⟩ (configure ⟨[], [], none, none⟩ none).1).2 = false ∧
      (configure ⟨[], [], none, none⟩ none).2 = true :=
  ⟨configure_equal_options_single_request.1 none ⟨[], [], none, none⟩ ⟨[], [], none, none⟩ rfl,
    configure_equal_options_single_request.2 ⟨[], [], none, none⟩⟩

/-- C3: a `triggerRefresh` call made while a prior refresh is in
`discoveryStarted` with an outstanding `_refreshPromise` returns exactly that
promise, leaves the state untouched, starts no `finder.refresh()` scan and
fires no progress event; any `triggerRefresh` call leaves the object in
`discoveryStarted` with its own returned promise outstanding (so an immediate
second call returns the same promise with zero additional scans), and a call
that does not find a refresh in progress starts exactly one scan. -/
theorem triggerRefresh_single_flight :
    (∀ (s : TriggerState) (p : Nat),
        s.refreshState = ProgressReportStage.discoveryStarted →
        s.refreshPromiseId = some p →
        triggerRefresh s =
          { promiseId := p, newState := s, finderRefreshCalls := 0, progressEvents := [] }) ∧
      (∀ s : TriggerState,
        (triggerRefresh s).newState.refreshState = ProgressReportStage.discoveryStarted ∧
          (triggerRefresh s).newState.refreshPromiseId = some (triggerRefresh s).promiseId ∧
          (triggerRefresh (triggerRefresh s).newState).promiseId = (triggerRefresh s).promiseId ∧
          (triggerRefresh (triggerRefresh s).newState).finderRefreshCalls = 0) ∧
      ∀ s : TriggerState,
        ¬ (s.refreshState = ProgressReportStage.discoveryStarted ∧ s.refreshPromiseId ≠ none) →
        (triggerRefresh s).finderRefreshCalls = 1 := by
  refine ⟨?_, ?_, ?_⟩
  · intro s p h1 h2
    simp [triggerRefresh, h1, h2]
  · intro s
    rcases hs : s.refreshState with h | h | h <;>
      rcases hp : s.refreshPromiseId with _ | p <;>
        simp [triggerRefresh, hs, hp]
  · intro s h
    rcases hs : s.refreshState with _ | _ | _ <;>
      rcases hp : s.refreshPromiseId with _ | p <;>
        simp_all [triggerRefresh]

/-- Witness for `triggerRefresh_single_flight`: a state mid-refresh returns
its outstanding promise 7 untouched. -/
theorem triggerRefresh_single_flight_witness :
    triggerRefresh
        { refreshState := ProgressReportStage.discoveryStarted,
          refreshPromiseId := some 7, nextPromiseId := 8 }
      = { promiseId := 7,
          newState :=
            { refreshState := ProgressReportStage.discoveryStarted,
              refreshPromiseId := some 7, nextPromiseId := 8 },
          finderRefreshCalls := 0, progressEvents := [] } :=
  triggerRefresh_single_flight.1
    { refreshState := ProgressReportStage.discoveryStarted,
      refreshPromiseId := some 7, nextPromiseId := 8 } 7 rfl rfl

end NativeEnvs

namespace NativeEnvs

/-- `truthy` holds exactly on non-empty present strings. -/
theorem truthy_eq_true_iff (x : Option String) :
    truthy x = true ↔ ∃ s, x = some s ∧ s ≠ "" := by
  cases x <;> simp [truthy]

/-- A record that is complete (truthy executable, version and prefix, with a
fully non-negative parsed version) is added as-is by the collection loop. -/
theorem collectionProcess_of_complete (resolveFn : String → Option NativeEnvInfo)
    (e : NativeEnvInfo)
    (hexe : truthy e.executable = true) (hver : truthy e.version = true)
    (_hpfx : truthy e.prefixPath = true)
    (hnn : VersionNonNeg (parseVersion (e.version.getD ""))) :
    collectionProcess resolveFn e = CollectionAction.addedDirect e := by
  obtain ⟨exe, hexe', hexene⟩ := (truthy_eq_true_iff _).1 hexe
  obtain ⟨hmaj, hmin, hmic⟩ := hnn
  have hvalid : validEnv e = true := by simp [validEnv, hexe']
  simp only [collectionProcess, hvalid, hexe']
  rw [if_neg (by simp)]
  rw [if_neg (by rintro ⟨-, h⟩; simp [truthy, hexene] at h)]
  rw [if_neg ?hneg, if_pos ?hpos]
  case hneg =>
    rw [if_pos hver]
    rintro ⟨-, h | ⟨v, hv, hneg⟩⟩
    · simp [Option.orElse] at h
    · obtain rfl : parseVersion (e.version.getD "") = v := by simpa using hv
      omega
  case hpos =>
    refine ⟨by simp [Option.orElse, truthy, hexene], ?_⟩
    rw [if_pos hver]
    exact ⟨parseVersion (e.version.getD ""), rfl, hmaj, hmin, hmic⟩

/-- C4: in the composed refresh pipeline, an environment record with an
executable that is missing version or prefix information, or whose parsed
version has a component below 0, triggers exactly one resolve sub-request for
its executable path, and the record handed to `addEnv` is the resolved record
returned by that sub-request, not the raw one; a record that already has
version and prefix with all parsed components non-negative is handed to
`addEnv` as-is with no sub-request. (`resolveFn` is the worker's resolve
request; worker answers are complete records and worker records carry no
empty-string fields.) -/
theorem under_specified_record_resolved_before_add
    (resolveFn : String → Option NativeEnvInfo) (raw res : NativeEnvInfo) (exe : String)
    (horacle : OracleComplete resolveFn) (hwf : WellFormedRecord raw) :
    (raw.executable = some exe →
        (truthy raw.version = false ∨ truthy raw.prefixPath = false ∨
          ¬ VersionNonNeg (parseVersion (raw.version.getD ""))) →
        resolveFn exe = some res →
        processRecord resolveFn raw = ([exe], some res) ∧ res ≠ raw) ∧
      (truthy raw.version = true → truthy raw.prefixPath = true →
        VersionNonNeg (parseVersion (raw.version.getD "")) →
        processRecord resolveFn raw = ([], some raw)) := by
  constructor
  · intro hexe hunder hres
    have hexene : exe ≠ "" := by
      intro h
      exact hwf.1 (h ▸ hexe)
    have htexe : truthy raw.executable = true := by
      rw [hexe]; simp [truthy, hexene]
    obtain ⟨hre, hrv, hrp, hrn⟩ := horacle exe res hres
    have hcomplete : collectionProcess resolveFn res = CollectionAction.addedDirect res :=
      collectionProcess_of_complete resolveFn res hre hrv hrp hrn
    have hneq : res ≠ raw := by
      intro h
      rcases hunder with h1 | h1 | h1
      · rw [← h, hrv] at h1; exact Bool.noConfusion h1
      · rw [← h, hrp] at h1; exact Bool.noConfusion h1
      · rw [← h] at h1; exact h1 hrn
    by_cases hfin : truthy raw.version = true ∧ truthy raw.prefixPath = true
    · -- the finder layer passes the record through; the collection loop resolves
      rcases hunder with h1 | h1 | h1
      · rw [hfin.1] at h1; exact Bool.noConfusion h1
      · rw [hfin.2] at h1; exact Bool.noConfusion h1
      · have hdirect : finderHandleEnvironment resolveFn raw = FinderEmit.direct raw := by
          unfold finderHandleEnvironment
          rw [if_neg]
          rintro ⟨-, h | h⟩
          · exact h hfin.1
          · exact h hfin.2
        have hvalid : validEnv raw = true := by simp [validEnv, hexe]
        have hcoll : collectionProcess resolveFn raw
            = CollectionAction.resolvedAdded exe res := by
          simp only [collectionProcess, hvalid, hexe]
          rw [if_neg (by simp)]
          rw [if_neg (by rintro ⟨-, h⟩; simp [truthy, hexene] at h)]
          rw [if_pos ?cnd]
          case cnd =>
            refine ⟨by simp [Option.orElse, truthy, hexene], Or.inr ?_⟩
            rw [if_pos hfin.1]
            refine ⟨parseVersion (raw.version.getD ""), rfl, ?_⟩
            by_contra hc
            push_neg at hc
            exact h1 ⟨hc.1, hc.2.1, hc.2.2⟩
          simp [Option.orElse, hres]
        refine ⟨?_, hneq⟩
        simp [processRecord, hdirect, hcoll]
    · -- the finder layer itself resolves
      have hfind : finderHandleEnvironment resolveFn raw = FinderEmit.resolvedEmit exe res := by
        unfold finderHandleEnvironment
        rw [if_pos ⟨htexe, by
          rcases not_and_or.1 hfin with h | h
          · exact Or.inl (by simpa using h)
          · exact Or.inr (by simpa using h)⟩]
        simp [hexe, hres]
      refine ⟨?_, hneq⟩
      simp [processRecord, hfind, hcomplete]
  · intro hv hp hnn
    have hdirect : finderHandleEnvironment resolveFn raw = FinderEmit.direct raw := by
      unfold finderHandleEnvironment
      rw [if_neg]
      rintro ⟨-, h | h⟩
      · exact h hv
      · exact h hp
    obtain ⟨pfx, hpfx', hpfxne⟩ := (truthy_eq_true_iff _).1 hp
    have hvalid : validEnv raw = true := by simp [validEnv, hpfx']
    have hcoll : collectionProcess resolveFn raw = CollectionAction.addedDirect raw := by
      cases hexe : raw.executable with
      | some exe =>
          have hexene : exe ≠ "" := by
            intro h
            exact hwf.1 (h ▸ hexe)
          exact collectionProcess_of_complete resolveFn raw
            (by rw [hexe]; simp [truthy, hexene]) hv hp hnn
      | none =>
          simp only [collectionProcess, hvalid, hexe]
          rw [if_neg (by simp)]
          by_cases hconda : categoryToKind raw.kind = PythonEnvKind.Conda
          · rw [if_pos ⟨hconda, by simp [truthy]⟩]
          · rw [if_neg (by rintro ⟨h, -⟩; exact hconda h)]
            rw [if_neg ?nres, if_pos ?nadd]
            case nres =>
              rw [if_pos hv]
              rintro ⟨-, h | ⟨v, hv', hneg⟩⟩
              · simp at h
              · obtain rfl : parseVersion (raw.version.getD "") = v := by simpa using hv'
                rcases hneg with h | h | h <;> [exact absurd hnn.1 (by omega);
                  exact absurd hnn.2.1 (by omega); exact absurd hnn.2.2 (by omega)]
            case nadd =>
              refine ⟨by simp [Option.orElse, hpfx', truthy, hpfxne], ?_⟩
              rw [if_pos hv]
              exact ⟨parseVersion (raw.version.getD ""), rfl, hnn.1, hnn.2.1, hnn.2.2⟩
    simp [processRecord, hdirect, hcoll]

/-- Witness for `under_specified_record_resolved_before_add`: the spec's
Scenario C record `{executable: "/a/python", kind: "VirtualEnv"}` resolved by
an oracle answering `sampleB`. -/
theorem under_specified_record_resolved_before_add_witness :
    processRecord sampleOracle sampleUnresolved = (["/a/python"], some sampleB) ∧
      sampleB ≠ sampleUnresolved :=
  (under_specified_record_resolved_before_add sampleOracle sampleUnresolved sampleB
      "/a/python"
      (fun p r hr => by
        cases hr
        exact ⟨by decide, by decide, by decide, by decide, by decide, by decide⟩)
      ⟨by decide, by decide, by decide⟩).1
    rfl (Or.inl rfl) rfl

/-- Replacement (filter out a path, push the new entry) preserves per-path
uniqueness. -/
theorem unique_replace (envs : List PythonEnvInfo) (info : PythonEnvInfo)
    (h : UniqueByPath envs) :
    UniqueByPath
      (envs.filter (fun item => ¬ item.executable.filename = info.executable.filename)
        ++ [info]) := by
  unfold UniqueByPath at h ⊢
  rw [List.pairwise_append]
  refine ⟨h.sublist (List.filter_sublist _), List.pairwise_singleton _ _, ?_⟩
  intro a ha b hb
  rw [List.mem_singleton] at hb
  subst hb
  have hmem := (List.mem_filter.1 ha).2
  simp only [decide_not, Bool.not_eq_true', decide_eq_false_iff_not] at hmem
  simpa [envKey] using hmem

/-- Appending an entry whose path is absent preserves per-path uniqueness. -/
theorem unique_append_new (envs : List PythonEnvInfo) (info : PythonEnvInfo)
    (h : UniqueByPath envs) (hnone : findByKey envs (envKey info) = none) :
    UniqueByPath (envs ++ [info]) := by
  unfold UniqueByPath at h ⊢
  rw [List.pairwise_append]
  refine ⟨h, List.pairwise_singleton _ _, ?_⟩
  intro a ha b hb
  rw [List.mem_singleton] at hb
  subst hb
  have := List.find?_eq_none.1 hnone a ha
  simpa [envKey] using this

/-- `addEnv` preserves per-path uniqueness. -/
theorem addEnv_preserves_unique (raw : NativeEnvInfo) (envs : List PythonEnvInfo)
    (h : UniqueByPath envs) : UniqueByPath (addEnv raw envs).1 := by
  cases hinfo : toPythonEnvInfo raw with
  | none => simpa [addEnv, hinfo] using h
  | some info =>
    cases hfind : envs.find?
        (fun item => item.executable.filename = info.executable.filename) with
    | some old =>
        simp only [addEnv, hinfo, hfind]
        exact unique_replace envs info h
    | none =>
        simp only [addEnv, hinfo, hfind]
        exact unique_append_new envs info h (by simpa [findByKey, envKey] using hfind)

/-- `resolveEnv` preserves per-path uniqueness. -/
theorem resolveEnv_preserves_unique (p : Option String) (res : Option NativeEnvInfo)
    (envs : List PythonEnvInfo) (h : UniqueByPath envs) :
    UniqueByPath (resolveEnv p res envs).1 := by
  cases p with
  | none => simpa [resolveEnv] using h
  | some p' =>
    cases res with
    | none => simpa [resolveEnv] using h
    | some native =>
      cases hinfo : toPythonEnvInfo native with
      | none => simpa [resolveEnv, hinfo] using h
      | some env =>
        cases hfind : envs.find?
            (fun item => item.executable.filename = env.executable.filename) with
        | some old =>
            simp only [resolveEnv, hinfo, hfind]
            exact unique_replace envs env h
        | none => simpa [resolveEnv, hinfo, hfind] using h

/-- Any sequence of collection operations preserves per-path uniqueness. -/
theorem runOps_preserves_unique (ops : List CollectionOp) :
    ∀ envs : List PythonEnvInfo, UniqueByPath envs → UniqueByPath (runOps envs ops) := by
  induction ops with
  | nil => intro envs h; exact h
  | cons op rest ih =>
      intro envs h
      rw [runOps]
      apply ih
      cases op with
      | add raw => exact addEnv_preserves_unique raw envs h
      | resolveCall p res => exact resolveEnv_preserves_unique p res envs h

/-- Lookup after a replacement: the replaced path now maps to the new entry,
all other paths are unchanged. -/
theorem findByKey_replace (envs : List PythonEnvInfo) (info : PythonEnvInfo) (k : String) :
    findByKey
        (envs.filter (fun item => ¬ item.executable.filename = info.executable.filename)
          ++ [info]) k
      = if k = envKey info then some info else findByKey envs k := by
  unfold findByKey
  rw [List.find?_append]
  by_cases hk : k = envKey info
  · rw [if_pos hk]
    have h1 : (envs.filter
          (fun item => ¬ item.executable.filename = info.executable.filename)).find?
        (fun item => item.executable.filename = k) = none := by
      rw [List.find?_eq_none]
      intro x hx
      have hmem := (List.mem_filter.1 hx).2
      simp only [decide_not, Bool.not_eq_true', decide_eq_false_iff_not] at hmem
      simp [hk, envKey, hmem]
    rw [h1]
    simp [hk, envKey]
  · rw [if_neg hk]
    have h2 : ([info].find? (fun item => item.executable.filename = k)) = none := by
      simp only [envKey] at hk
      have hd : decide (info.executable.filename = k) = false :=
        decide_eq_false (fun h => hk h.symm)
      simp [List.find?, hd]
    rw [h2, Option.or_none]
    exact find?_filter_of_imp _ _ envs (by
      intro x hx
      simp only [decide_eq_true_eq] at hx
      simp only [decide_not, Bool.not_eq_true', decide_eq_false_iff_not]
      intro hcontra
      exact hk (hx ▸ hcontra ▸ rfl))

/-- Lookup after appending a previously absent path: that path maps to the new
entry, all other paths are unchanged. -/
theorem findByKey_append_new (envs : List PythonEnvInfo) (info : PythonEnvInfo) (k : String)
    (hnone : findByKey envs (envKey info) = none) :
    findByKey (envs ++ [info]) k
      = if k = envKey info then some info else findByKey envs k := by
  unfold findByKey at hnone ⊢
  rw [List.find?_append]
  by_cases hk : k = envKey info
  · rw [if_pos hk, hk, hnone]
    simp [envKey]
  · rw [if_neg hk]
    have h2 : ([info].find? (fun item => item.executable.filename = k)) = none := by
      simp only [envKey] at hk
      have hd : decide (info.executable.filename = k) = false :=
        decide_eq_false (fun h => hk h.symm)
      simp [List.find?, hd]
    rw [h2, Option.or_none]

/-- Frame property of a single collection operation: the entry surviving under
a path is the record the operation writes there, and paths the operation does
not write keep their previous entry. -/
theorem applyOp_frame (envs : List PythonEnvInfo) (op : CollectionOp) (k : String) :
    (opWrites envs op k = none → findByKey (applyOp envs op).1 k = findByKey envs k) ∧
      ∀ i, opWrites envs op k = some i → findByKey (applyOp envs op).1 k = some i := by
  cases op with
  | add raw =>
      cases hinfo : toPythonEnvInfo raw with
      | none =>
          constructor
          · intro _; simp [applyOp, addEnv, hinfo]
          · intro i hi; simp [opWrites, hinfo] at hi
      | some info =>
          cases hfind : envs.find?
              (fun item => item.executable.filename = info.executable.filename) with
          | some old =>
              have hres : (applyOp envs (CollectionOp.add raw)).1 =
                  envs.filter
                      (fun item => ¬ item.executable.filename = info.executable.filename)
                    ++ [info] := by
                simp [applyOp, addEnv, hinfo, hfind]
              constructor
              · intro hw
                by_cases hk : envKey info = k
                · simp [opWrites, hinfo, hk] at hw
                · rw [hres, findByKey_replace, if_neg (fun h => hk h.symm)]
              · intro i hi
                by_cases hk : envKey info = k
                · have hii : info = i := by simpa [opWrites, hinfo, hk] using hi
                  subst hii
                  rw [hres, findByKey_replace, if_pos hk.symm]
                · simp [opWrites, hinfo, hk] at hi
          | none =>
              have hnone : findByKey envs (envKey info) = none := by
                simpa [findByKey, envKey] using hfind
              have hres : (applyOp envs (CollectionOp.add raw)).1 = envs ++ [info] := by
                simp [applyOp, addEnv, hinfo, hfind]
              constructor
              · intro hw
                by_cases hk : envKey info = k
                · simp [opWrites, hinfo, hk] at hw
                · rw [hres, findByKey_append_new envs info k hnone,
                    if_neg (fun h => hk h.symm)]
              · intro i hi
                by_cases hk : envKey info = k
                · have hii : info = i := by simpa [opWrites, hinfo, hk] using hi
                  subst hii
                  rw [hres, findByKey_append_new envs info k hnone, if_pos hk.symm]
                · simp [opWrites, hinfo, hk] at hi
  | resolveCall p res =>
      cases p with
      | none =>
          constructor
          · intro _; simp [applyOp, resolveEnv]
          · intro i hi; simp [opWrites, resolveEnv] at hi
      | some p' =>
          cases res with
          | none =>
              constructor
              · intro _; simp [applyOp, resolveEnv]
              · intro i hi; simp [opWrites, resolveEnv] at hi
          | some native =>
              cases hinfo : toPythonEnvInfo native with
              | none =>
                  constructor
                  · intro _; simp [applyOp, resolveEnv, hinfo]
                  · intro i hi; simp [opWrites, resolveEnv, hinfo] at hi
              | some env =>
                  cases hfind : envs.find?
                      (fun item => item.executable.filename = env.executable.filename) with
                  | some old =>
                      have hsome : findByKey envs (envKey env) = some old := by
                        simpa [findByKey, envKey] using hfind
                      have hres :
                          (applyOp envs (CollectionOp.resolveCall (some p') (some native))).1 =
                            envs.filter
                                (fun item =>
                                  ¬ item.executable.filename = env.executable.filename)
                              ++ [env] := by
                        simp [applyOp, resolveEnv, hinfo, hfind]
                      have hw : opWrites envs (CollectionOp.resolveCall (some p') (some native)) k
                          = if envKey env = k then some env else none := by
                        simp [opWrites, resolveEnv, hinfo, hfind, hsome]
                      constructor
                      · intro hw'
                        rw [hw] at hw'
                        by_cases hk : envKey env = k
                        · simp [hk] at hw'
                        · rw [hres, findByKey_replace, if_neg (fun h => hk h.symm)]
                      · intro i hi
                        rw [hw] at hi
                        by_cases hk : envKey env = k
                        · have hii : env = i := by simpa [hk] using hi
                          subst hii
                          rw [hres, findByKey_replace, if_pos hk.symm]
                        · simp [hk] at hi
                  | none =>
                      have hnone2 : findByKey envs (envKey env) = none := by
                        simpa [findByKey, envKey] using hfind
                      constructor
                      · intro _
                        simp [applyOp, resolveEnv, hinfo, hfind]
                      · intro i hi
                        simp [opWrites, resolveEnv, hinfo, hfind, hnone2] at hi

/-- C1: (i) after any sequence of `addEnv`/`resolveEnv` operations from the
empty collection, the collection has at most one entry per executable path;
(ii) an `addEnv` whose normalized executable path is absent appends the entry
and fires `Created`, one whose path is present replaces the old entry and
fires `Changed(old, new)`; (iii) the entry surviving under a path after an
operation is exactly the record that operation applied to it (its normalized
`addEnv` record, or its merged `resolveEnv` result), and paths an operation
does not write are untouched — so the surviving entry for a path is always
the most recently applied record for it. -/
theorem collection_unique_per_path_most_recent_wins :
    (∀ ops : List CollectionOp, UniqueByPath (runOps [] ops)) ∧
      (∀ (envs : List PythonEnvInfo) (raw : NativeEnvInfo) (info : PythonEnvInfo),
        toPythonEnvInfo raw = some info →
          (findByKey envs (envKey info) = none →
            addEnv raw envs = (envs ++ [info], [ChangeEvent.Created info])) ∧
          ∀ old, findByKey envs (envKey info) = some old →
            addEnv raw envs =
              (envs.filter
                  (fun item => ¬ item.executable.filename = info.executable.filename)
                ++ [info],
                [ChangeEvent.Changed old info])) ∧
      ∀ (envs : List PythonEnvInfo) (op : CollectionOp) (k : String),
        (opWrites envs op k = none → findByKey (applyOp envs op).1 k = findByKey envs k) ∧
          ∀ i, opWrites envs op k = some i → findByKey (applyOp envs op).1 k = some i := by
  refine ⟨?_, ?_, applyOp_frame⟩
  · intro ops
    exact runOps_preserves_unique ops [] (List.Pairwise.nil)
  · intro envs raw info hinfo
    constructor
    · intro hnone
      have hfind : envs.find?
          (fun item => item.executable.filename = info.executable.filename) = none := by
        simpa [findByKey, envKey] using hnone
      simp [addEnv, hinfo, hfind]
    · intro old hsome
      have hfind : envs.find?
          (fun item => item.executable.filename = info.executable.filename) = some old := by
        simpa [findByKey, envKey] using hsome
      simp [addEnv, hinfo, hfind]

/-- Witness for `collection_unique_per_path_most_recent_wins`: adding
`sampleA` to the empty collection appends its normalization and fires
`Created`. -/
theorem collection_unique_per_path_most_recent_wins_witness :
    addEnv sampleA [] =
      ([(toPythonEnvInfo sampleA).getD sampleEnvInfo],
        [ChangeEvent.Created ((toPythonEnvInfo sampleA).getD sampleEnvInfo)]) :=
  (collection_unique_per_path_most_recent_wins.2.1 [] sampleA
      ((toPythonEnvInfo sampleA).getD sampleEnvInfo) rfl).1 rfl

/-- Every step of the completion latch only appends to `pendingPromises`. -/
theorem refreshStep_pending_mono {s s' : DoRefreshState} (h : RefreshStep s s') :
    ∃ t, s'.pending = s.pending ++ t := by
  cases h with
  | track p => exact ⟨[p], rfl⟩
  | settle p hp => exact ⟨[], by simp⟩
  | waiterFires w hw hall hlen => exact ⟨[], by simp⟩
  | waiterRetries w hw hall hlen => exact ⟨[], by simp⟩

/-- Each queued `Promise.all` continuation awaits a snapshot that is a prefix
of the current `pendingPromises`; this is preserved by every step. -/
theorem refreshStep_preserves_snapshots {s s' : DoRefreshState} (h : RefreshStep s s')
    (hinv : ∀ w ∈ s.waiters, ∃ t, s.pending = w ++ t) :
    ∀ w ∈ s'.waiters, ∃ t, s'.pending = w ++ t := by
  cases h with
  | track p =>
      intro w hw
      simp only [List.mem_append, List.mem_singleton] at hw
      rcases hw with hw | rfl
      · obtain ⟨t, ht⟩ := hinv w hw
        exact ⟨t ++ [p], by simp [ht]⟩
      · exact ⟨[], by simp⟩
  | settle p hp =>
      intro w hw
      exact hinv w hw
  | waiterFires w' hw' hall hlen =>
      intro w hw
      exact hinv w (List.mem_of_mem_erase hw)
  | waiterRetries w' hw' hall hlen =>
      intro w hw
      simp only [List.mem_append, List.mem_singleton] at hw
      rcases hw with hw | rfl
      · exact hinv w (List.mem_of_mem_erase hw)
      · exact ⟨[], by simp⟩

/-- The snapshot invariant holds in every reachable latch state. -/
theorem reachable_snapshots (s : DoRefreshState) (h : ReachableRefresh s) :
    ∀ w ∈ s.waiters, ∃ t, s.pending = w ++ t := by
  induction h with
  | refl => intro w hw; simp [initialRefreshState] at hw
  | tail hsteps hstep ih => exact refreshStep_preserves_snapshots hstep ih

/-- C2: the completion latch of `doRefresh` resolves `completed` only at a
fixed point: in any reachable latch state, a step that fires the completion
signal leaves every tracked promise — the worker `refresh` request and every
spawned `resolve` sub-request are all tracked — settled. The firing
continuation has seen all promises of its snapshot settle and found that no
new promise was tracked while it waited (its `initialCount` still equals the
length of append-only `pendingPromises`), which forces its snapshot to be the
whole pending list. -/
theorem refresh_completion_waits_for_all (s s' : DoRefreshState)
    (hreach : ReachableRefresh s) (hstep : RefreshStep s s')
    (hbefore : s.fired = false) (hafter : s'.fired = true) :
    ∀ p ∈ s'.pending, p ∈ s'.settledIds := by
  cases hstep with
  | track p =>
      rw [hbefore] at hafter
      exact absurd hafter Bool.noConfusion
  | settle p hp =>
      rw [hbefore] at hafter
      exact absurd hafter Bool.noConfusion
  | waiterRetries w hw hall hlen =>
      rw [hbefore] at hafter
      exact absurd hafter Bool.noConfusion
  | waiterFires w hw hall hlen =>
      obtain ⟨t, ht⟩ := reachable_snapshots s hreach w hw
      have htlen : t.length = 0 := by
        have hlen2 := congrArg List.length ht
        simp only [List.length_append] at hlen2
        omega
      have htnil : t = [] := List.eq_nil_of_length_eq_zero htlen
      subst htnil
      intro p hp
      apply hall
      simpa [ht] using hp

/-- Witness for `refresh_completion_waits_for_all`: track promise 0, settle
it, then let its continuation fire completion; promise 0 is settled there. -/
theorem refresh_completion_waits_for_all_witness :
    (0 : Nat) ∈ c2State2.settledIds := by
  have hreach : ReachableRefresh c2State1 :=
    Relation.ReflTransGen.tail
      (Relation.ReflTransGen.tail Relation.ReflTransGen.refl
        (RefreshStep.track initialRefreshState 0))
      (RefreshStep.settle _ 0 (by decide))
  have hstep : RefreshStep c2State1 c2State2 :=
    RefreshStep.waiterFires c2State1 [0] (by decide) (by decide) rfl
  exact refresh_completion_waits_for_all c2State1 c2State2 hreach hstep rfl rfl 0 (by decide)
